import Mathlib

/-!
Shallow embedding of `gradle_cache_to_mvn_repo.py`.

Modelling conventions:
* Filesystem paths are lists of path segments (`Path := List String`);
  `os.path.join(p, name)` becomes `pjoin p name`, which appends the
  segments of `name`.
* The filesystem is an association list from paths to nodes
  (`Fs := List (Path × FsNode)`); a node is a regular file with its byte
  content, or a directory.  The listing order of a directory is the order
  of its entries in the association list (Python's `os.listdir` order is
  unspecified anyway).
* Fallible filesystem operations return `Except PyError _`; an uncaught
  Python exception is an `Except.error`.
* Python dicts (insertion ordered) are association lists; `dictSet` on an
  existing key replaces the value in place, otherwise it appends.
* Python object identity (`id(obj)`, the fallback for the default
  `__eq__` used by `in` on a list of `Artifact`s) is modelled by an
  explicit `oid : Nat` field on `Artifact`; the scanner allocates a fresh
  `oid` for every `Artifact()` construction.
-/

namespace Gc2m

/-- The classes of Python exception the program can raise. -/
inductive PyError where
  | attributeError
  | fileNotFoundError
  | notADirectoryError
  | isADirectoryError
deriving DecidableEq

/-- A filesystem path, as its list of segments. -/
abbrev Path := List String

/-- A filesystem node: a regular file with its byte content, or a directory. -/
inductive FsNode where
  | file (content : String)
  | dirNode
deriving DecidableEq

/-- A filesystem: an association list from paths to nodes. -/
abbrev Fs := List (Path × FsNode)

/-- Look a path up in the filesystem (first matching entry). -/
def fsGet (fs : Fs) (p : Path) : Option FsNode :=
  (fs.find? fun e => decide (e.1 = p)).map Prod.snd

/-- `os.path.exists`. -/
def pathExists (fs : Fs) (p : Path) : Bool :=
  (fsGet fs p).isSome

/-- `isUnder root p` holds when `root` is an initial run of `p`'s segments:
`p` is `root` itself or lies inside the directory tree rooted at `root`. -/
def isUnder : Path → Path → Bool
  | [], _ => true
  | _ :: _, [] => false
  | a :: as, b :: bs => decide (a = b) && isUnder as bs

/-- The name under which `q` appears as an immediate child of directory `p`,
if it is one. -/
def childName (p q : Path) : Option String :=
  if isUnder p q && decide (q.length = p.length + 1) then q.getLast? else none

/-- `os.listdir`: the names of the immediate children of directory `p`, in
association-list order; raises if `p` is a file or does not exist. -/
def listdir (fs : Fs) (p : Path) : Except PyError (List String) :=
  match fsGet fs p with
  | some FsNode.dirNode => Except.ok (fs.filterMap fun e => childName p e.1)
  | some (FsNode.file _) => Except.error PyError.notADirectoryError
  | none => Except.error PyError.fileNotFoundError

/-- Store node `n` at path `p`: replace the existing entry in place, or
append a new one. -/
def fsSet (fs : Fs) (p : Path) (n : FsNode) : Fs :=
  if pathExists fs p then fs.map fun e => if e.1 = p then (p, n) else e
  else fs ++ [(p, n)]

/-- One level of `os.makedirs`: create directory `q` unless it is the root
or already present. -/
def addDir (fs : Fs) (q : Path) : Fs :=
  if q = [] ∨ pathExists fs q then fs else fs ++ [(q, FsNode.dirNode)]

/-- `os.makedirs p`: create `p` and all missing ancestor directories. -/
def makedirs (fs : Fs) (p : Path) : Fs :=
  p.inits.foldl addDir fs

/-- The `if not os.path.exists(p): os.makedirs(p)` idiom of
`MavenRepoWriter.write`. -/
def ensureDir (fs : Fs) (p : Path) : Fs :=
  if pathExists fs p then fs else makedirs fs p

/-- `shutil.copyfile src dst`: read the regular file at `src` and store its
content at `dst` (overwriting anything there); raises if `src` is missing
or is a directory. -/
def copyfile (fs : Fs) (src dst : Path) : Except PyError Fs :=
  match fsGet fs src with
  | some (FsNode.file c) => Except.ok (fsSet fs dst (FsNode.file c))
  | some FsNode.dirNode => Except.error PyError.isADirectoryError
  | none => Except.error PyError.fileNotFoundError

/-- Split a character list at every occurrence of `c` (the splitting
behaviour of `str.split`, keeping empty pieces). -/
def splitChar (c : Char) : List Char → List (List Char)
  | [] => [[]]
  | x :: xs =>
    match splitChar c xs with
    | [] => [[]]
    | s :: rest => if x = c then [] :: s :: rest else (x :: s) :: rest

/-- The segments of a path string: split at `'/'`. -/
def pathSegs (s : String) : List String :=
  (splitChar '/' s.data).map fun l => String.mk l

/-- `os.path.join p name`: append the segments of `name` to `p`. -/
def pjoin (p : Path) (name : String) : Path :=
  p ++ pathSegs name

/-- Render a segment path as a `'/'`-joined string. -/
def pathToString : Path → String
  | [] => ""
  | [s] => s
  | s :: rest => s ++ "/" ++ pathToString rest

/-! ## The data model (`ArtifactEntry`, `Artifact`, `Group`, `ArtifactRepo`) -/

/-- `class ArtifactEntry`: one physical file (`file_name`) together with its
containing directory (`location`). -/
structure ArtifactEntry where
  file_name : String
  location : String
deriving DecidableEq

/-- `ArtifactEntry.get_full_path`: `self.location + '/' + self.file_name`. -/
def ArtifactEntry.get_full_path (e : ArtifactEntry) : String :=
  e.location ++ "/" ++ e.file_name

/-- `ArtifactEntry.__eq__`: compare the `(file_name, location)` tuples. -/
def ArtifactEntry.pyEq (a b : ArtifactEntry) : Bool :=
  decide ((a.file_name, a.location) = (b.file_name, b.location))

/-- `ArtifactEntry.__ne__`: `not (self == other)`. -/
def ArtifactEntry.pyNe (a b : ArtifactEntry) : Bool :=
  !(ArtifactEntry.pyEq a b)

/-- `ArtifactEntry.__hash__`: `hash((self.file_name, self.location))`. -/
def ArtifactEntry.pyHash (e : ArtifactEntry) : UInt64 :=
  hash (e.file_name, e.location)

/-- Python-dict lookup in an association list (first matching key). -/
def dictGet {α : Type} (d : List (String × α)) (k : String) : Option α :=
  (d.find? fun e => decide (e.1 = k)).map Prod.snd

/-- Python-dict key membership. -/
def dictContains {α : Type} (d : List (String × α)) (k : String) : Bool :=
  d.any fun e => decide (e.1 = k)

/-- Python-dict store: replace the value of an existing key in place
(keeping its position), otherwise append the new binding. -/
def dictSet {α : Type} (d : List (String × α)) (k : String) (v : α) :
    List (String × α) :=
  if dictContains d k then d.map fun e => if e.1 = k then (k, v) else e
  else d ++ [(k, v)]

/-- In-place update of the value bound to `k` (used for mutating the list
object stored in a dict, as `d[version].append(entry)` does). -/
def dictModify {α : Type} (d : List (String × α)) (k : String) (f : α → α) :
    List (String × α) :=
  d.map fun e => if e.1 = k then (e.1, f e.2) else e

/-- `class Artifact`: an identifier plus a dict from version string to the
list of entries of that version.  `oid` models CPython object identity. -/
structure Artifact where
  oid : Nat
  id : String
  versioned_entries : List (String × List ArtifactEntry)
deriving DecidableEq

/-- `Artifact.append_entry`:
```python
if version not in self.versioned_entries:
    self.versioned_entries[version] = [entry]
self.versioned_entries[version].append(entry)
```
Note there is no `else`: for the first entry of a version the singleton
list is created and then the same entry is appended to it again. -/
def Artifact.append_entry (a : Artifact) (version : String)
    (entry : ArtifactEntry) : Artifact :=
  let d := if dictContains a.versioned_entries version then a.versioned_entries
           else dictSet a.versioned_entries version [entry]
  { a with versioned_entries := dictModify d version fun l => l ++ [entry] }

/-- `Artifact.get_versions`: the dict's keys, in insertion order. -/
def Artifact.get_versions (a : Artifact) : List String :=
  a.versioned_entries.map Prod.fst

/-- `Artifact.get_entries`: `self.versioned_entries[version]` (a missing
version would raise `KeyError`; modelled as `Option`). -/
def Artifact.get_entries (a : Artifact) (version : String) :
    Option (List ArtifactEntry) :=
  dictGet a.versioned_entries version

/-- Python `is` / the default `__eq__` fallback on `Artifact` objects:
object identity. -/
def pyIs (a b : Artifact) : Bool :=
  decide (a.oid = b.oid)

/-- `class Group`: an identifier, the source path it was discovered at, and
a list of artifacts. -/
structure Group where
  id : String
  path : Path
  artifacts : List Artifact
deriving DecidableEq

/-- `Group.add_artifact`:
`if artifact not in self.artifacts: self.artifacts.append(artifact)`.
`Artifact` does not override `__eq__`, so list membership falls back to
object identity. -/
def Group.add_artifact (g : Group) (artifact : Artifact) : Group :=
  if g.artifacts.any fun x => pyIs x artifact then g
  else { g with artifacts := g.artifacts ++ [artifact] }

/-- The method `equals` that `Group.merge` looks up on `self.id`: Python
`str` has no such method, so the lookup fails. -/
def strEqualsMethod : Option (String → String → Bool) := none

/-- `Group.merge`:
```python
if self.id.equals(other_group.id):
    for artifact in other_group.artifacts:
        self.add_artifact(artifact)
```
The attribute lookup `self.id.equals` raises `AttributeError` (Python
strings have no method `equals`), so the body below the condition is never
reached. -/
def Group.merge (self other : Group) : Except PyError Group :=
  match strEqualsMethod with
  | none => Except.error PyError.attributeError
  | some eqFn =>
    Except.ok (if eqFn self.id other.id then
      other.artifacts.foldl (fun g a => g.add_artifact a) self
    else self)

/-- `Group.get_as_path`: `self.id.replace('.', '/')`.  For a
single-character pattern and replacement, Python's `str.replace`
substitutes each occurrence of the character, i.e. it maps `'.' ↦ '/'`
over the characters of the string. -/
def Group.get_as_path (g : Group) : String :=
  String.mk (g.id.data.map fun c => if c = '.' then '/' else c)

/-- `class ArtifactRepo`: a dict from group identifier to `Group`. -/
structure ArtifactRepo where
  groups : List (String × Group)
deriving DecidableEq

/-- `ArtifactRepo.__create_group_path` (a private helper the program never
calls): create the directory if it does not exist. -/
def ArtifactRepo.create_group_path (fs : Fs) (group_path : Path) : Fs :=
  if pathExists fs group_path then fs else makedirs fs group_path

/-- `ArtifactRepo.add_group`:
```python
if group.id in self.groups:
    self.groups[group.id].merge(group)
else:
    self.groups[group.id] = group
``` -/
def ArtifactRepo.add_group (r : ArtifactRepo) (group : Group) :
    Except PyError ArtifactRepo :=
  match dictGet r.groups group.id with
  | some existing => do
      let merged ← existing.merge group
      Except.ok (ArtifactRepo.mk (dictSet r.groups group.id merged))
  | none => Except.ok (ArtifactRepo.mk (dictSet r.groups group.id group))

/-! ## The cache scanner (`GradleCache`) -/

/-- The directory the module-path glob starts from:
`<cache_dir>/caches`. -/
def cachesDirOf (cache_dir : Path) : Path :=
  cache_dir ++ ["caches"]

/-- `pat` is an initial run of `s` (character-wise). -/
def charsLead : List Char → List Char → Bool
  | [], _ => true
  | _ :: _, [] => false
  | p :: ps, c :: cs => decide (p = c) && charsLead ps cs

/-- `fnmatch` for a pattern of the shape `stem*`. -/
def globStarMatch (stem name : String) : Bool :=
  charsLead stem.data name.data

/-- `glob.glob(cache_dir + "/caches/modules-*/files-*")`: every existing
path whose two final components match `modules-*` and `files-*`.  A
missing or non-directory `caches` directory silently yields `[]`; an
intermediate `modules-*` match that is not a directory contributes
nothing; the final `files-*` component may be a file or a directory. -/
def globModulePaths (fs : Fs) (cache_dir : Path) : List Path :=
  let cachesP := cachesDirOf cache_dir
  match fsGet fs cachesP with
  | some FsNode.dirNode =>
    ((fs.filterMap fun e => childName cachesP e.1).filter
        (fun n => globStarMatch "modules-" n)).flatMap fun m =>
      let mp := cachesP ++ [m]
      match fsGet fs mp with
      | some FsNode.dirNode =>
        ((fs.filterMap fun e => childName mp e.1).filter
            (fun n => globStarMatch "files-" n)).map fun f => mp ++ [f]
      | _ => []
  | _ => []

/-- `GradleCache.__generate_groups`: for every glob-matched module path,
every immediate child name is a group identifier; each is inserted into
the repository. -/
def GradleCache.generate_groups (fs : Fs) (cache_dir : Path) :
    Except PyError ArtifactRepo :=
  (globModulePaths fs cache_dir).foldlM
    (fun r module_path => do
      let names ← listdir fs module_path
      names.foldlM
        (fun r group_id =>
          r.add_group (Group.mk group_id (pjoin module_path group_id) []))
        r)
    (ArtifactRepo.mk [])

/-- `GradleCache.__load_artifact_entries_by_version`: every file of every
content-hash directory of the version becomes an `ArtifactEntry` appended
to the artifact's bucket for that version. -/
def GradleCache.load_artifact_entries_by_version (fs : Fs) (artifact : Artifact)
    (artifact_path : Path) (version : String) : Except PyError Artifact := do
  let artifact_version_path := pjoin artifact_path version
  let hashes ← listdir fs artifact_version_path
  hashes.foldlM
    (fun a gradle_hash => do
      let gradle_hash_path := pjoin artifact_version_path gradle_hash
      let files ← listdir fs gradle_hash_path
      Except.ok (files.foldl
        (fun a f =>
          a.append_entry version (ArtifactEntry.mk f (pathToString gradle_hash_path)))
        a))
    artifact

/-- `GradleCache.__load_artifact`: build a fresh `Artifact` (fresh object
identity `oid`) and load every version directory into it. -/
def GradleCache.load_artifact (fs : Fs) (artifact_path : Path)
    (artifact_id : String) (oid : Nat) : Except PyError Artifact := do
  let a := Artifact.mk oid artifact_id []
  let versions ← listdir fs artifact_path
  versions.foldlM
    (fun a artifact_version =>
      GradleCache.load_artifact_entries_by_version fs a artifact_path artifact_version)
    a

/-- `GradleCache.__generate_artifacts`: for every group already in the
repository, every immediate child of the group's source path is an
artifact; it is loaded and added to the group.  The `Nat` component
threads the fresh-`oid` allocator. -/
def GradleCache.generate_artifacts (fs : Fs) (r : ArtifactRepo) :
    Except PyError ArtifactRepo := do
  let st ← r.groups.foldlM
    (fun (st : List (String × Group) × Nat) gg => do
      let group_path := gg.2.path
      let names ← listdir fs group_path
      let gc ← names.foldlM
        (fun (gc : Group × Nat) artifact_id => do
          let artifact_path := pjoin group_path artifact_id
          let artifact ← GradleCache.load_artifact fs artifact_path artifact_id gc.2
          Except.ok (gc.1.add_artifact artifact, gc.2 + 1))
        (gg.2, st.2)
      Except.ok (st.1 ++ [(gg.1, gc.1)], gc.2))
    ([], 0)
  Except.ok (ArtifactRepo.mk st.1)

/-- `GradleCache.load` / `__load_repo`: group discovery, then artifact
discovery. -/
def GradleCache.load (fs : Fs) (cache_dir : Path) :
    Except PyError ArtifactRepo := do
  let r ← GradleCache.generate_groups fs cache_dir
  GradleCache.generate_artifacts fs r

/-! ## The writer (`MavenRepoWriter`) and the orchestrator -/

/-- One write operation of the writer's innermost loop: the version
directory to ensure, the source path to read and the destination path to
write. -/
structure WriteOp where
  vp : Path
  src : Path
  dst : Path
deriving DecidableEq

/-- The body of the writer's innermost loop:
```python
if not os.path.exists(version_path):
    os.makedirs(version_path)
entry_path = os.path.join(version_path, entry.file_name)
shutil.copyfile(entry.get_full_path(), entry_path)
``` -/
def writeStep (fs : Fs) (op : WriteOp) : Except PyError Fs :=
  copyfile (ensureDir fs op.vp) op.src op.dst

/-- The `WriteOp` of one entry of one version of one artifact of one
group. -/
def entryOp (version_path : Path) (entry : ArtifactEntry) : WriteOp :=
  WriteOp.mk version_path (pathSegs entry.get_full_path)
    (pjoin version_path entry.file_name)

/-- `MavenRepoWriter.write`: ensure the target root exists, then walk
groups / artifacts / versions / entries and copy every entry to
`target/<group-as-path>/<artifact-id>/<version>/<file_name>`. -/
def MavenRepoWriter.write (fs : Fs) (repo : ArtifactRepo) (target_dir : Path) :
    Except PyError Fs :=
  let fs := ensureDir fs target_dir
  repo.groups.foldlM
    (fun fs gg =>
      let group_path := pjoin target_dir gg.2.get_as_path
      gg.2.artifacts.foldlM
        (fun fs artifact =>
          let artifact_path := pjoin group_path artifact.id
          artifact.versioned_entries.foldlM
            (fun fs ve =>
              let version_path := pjoin artifact_path ve.1
              ve.2.foldlM (fun fs entry => writeStep fs (entryOp version_path entry)) fs)
            fs)
        fs)
    fs

/-- The flat list of write operations the writer performs, in program
order. -/
def entryOps (repo : ArtifactRepo) (target_dir : Path) : List WriteOp :=
  repo.groups.flatMap fun gg =>
    let group_path := pjoin target_dir gg.2.get_as_path
    gg.2.artifacts.flatMap fun artifact =>
      let artifact_path := pjoin group_path artifact.id
      artifact.versioned_entries.flatMap fun ve =>
        let version_path := pjoin artifact_path ve.1
        ve.2.map fun entry => entryOp version_path entry

/-- `cleanup_mvn_dir`: `shutil.rmtree(mvn_dir)` — remove the directory and
everything below it; raises `FileNotFoundError` when it does not exist and
`NotADirectoryError` when it is a regular file. -/
def cleanup_mvn_dir (fs : Fs) (mvn_dir : Path) : Except PyError Fs :=
  match fsGet fs mvn_dir with
  | some FsNode.dirNode => Except.ok (fs.filter fun e => !(isUnder mvn_dir e.1))
  | some (FsNode.file _) => Except.error PyError.notADirectoryError
  | none => Except.error PyError.fileNotFoundError

/-- The parsed command-line arguments. -/
structure Args where
  gradle_cache_dir : Path
  target_mvn_dir : Path
  pre_clean_mvn_dir : Bool

/-- `main` after argument parsing: scan the cache, optionally pre-clean
the target directory, then write. -/
def main_run (fs : Fs) (args : Args) : Except PyError Fs := do
  let repo ← GradleCache.load fs args.gradle_cache_dir
  let fs ← if args.pre_clean_mvn_dir then cleanup_mvn_dir fs args.target_mvn_dir
           else Except.ok fs
  MavenRepoWriter.write fs repo args.target_mvn_dir

/-! ## Concrete caches used to evaluate the scanner -/

/-- A cache with one group, one artifact, one version, one content-hash
directory and one file. -/
def fsCache : Fs :=
  [(["c"], FsNode.dirNode),
   (["c", "caches"], FsNode.dirNode),
   (["c", "caches", "modules-2"], FsNode.dirNode),
   (["c", "caches", "modules-2", "files-2.1"], FsNode.dirNode),
   (["c", "caches", "modules-2", "files-2.1", "org.foo"], FsNode.dirNode),
   (["c", "caches", "modules-2", "files-2.1", "org.foo", "bar"], FsNode.dirNode),
   (["c", "caches", "modules-2", "files-2.1", "org.foo", "bar", "1.0.0"],
      FsNode.dirNode),
   (["c", "caches", "modules-2", "files-2.1", "org.foo", "bar", "1.0.0", "abcd"],
      FsNode.dirNode),
   (["c", "caches", "modules-2", "files-2.1", "org.foo", "bar", "1.0.0", "abcd",
      "bar-1.0.0.jar"], FsNode.file "JARBYTES")]

/-- The single entry the scanner discovers in `fsCache`. -/
def eCache : ArtifactEntry :=
  ArtifactEntry.mk "bar-1.0.0.jar" "c/caches/modules-2/files-2.1/org.foo/bar/1.0.0/abcd"

/-- A cache whose two `files-*` roots contain the same group identifier
`grp`, so that the second insertion hits the merge path of
`ArtifactRepo.add_group`. -/
def fsDup : Fs :=
  [(["c"], FsNode.dirNode),
   (["c", "caches"], FsNode.dirNode),
   (["c", "caches", "modules-2"], FsNode.dirNode),
   (["c", "caches", "modules-2", "files-1"], FsNode.dirNode),
   (["c", "caches", "modules-2", "files-2"], FsNode.dirNode),
   (["c", "caches", "modules-2", "files-1", "grp"], FsNode.dirNode),
   (["c", "caches", "modules-2", "files-2", "grp"], FsNode.dirNode)]

/-! ## C1: the merge path of `ArtifactRepo.add_group` -/

/-- C1: inserting a `Group` whose identifier already exists does not merge
the two groups: `Group.merge` immediately raises `AttributeError`
(`self.id.equals` does not exist on Python strings), so the whole run
aborts.  Evaluated both at the `add_group` call and on a full scan of a
cache whose two module roots share the group identifier `grp`. -/
theorem add_group_merge_raises_attribute_error :
    (ArtifactRepo.mk
        [("grp", Group.mk "grp" ["c", "caches", "modules-2", "files-1", "grp"] [])]).add_group
        (Group.mk "grp" ["c", "caches", "modules-2", "files-2", "grp"] [])
      = Except.error PyError.attributeError
    ∧ GradleCache.load fsDup ["c"] = Except.error PyError.attributeError :=
  ⟨rfl, rfl⟩

/-! ## C2: `Artifact.append_entry` duplicates the first file of a version -/

/-- C2: a version whose content-hash directories contain exactly one file
ends up with two entries, not one: `append_entry` creates the singleton
list and then appends the same entry to it again.  Evaluated on the
version scan (`__load_artifact_entries_by_version`) and on `append_entry`
itself. -/
theorem scan_version_entry_count_off_by_one :
    (GradleCache.load_artifact_entries_by_version fsCache (Artifact.mk 0 "bar" [])
        ["c", "caches", "modules-2", "files-2.1", "org.foo", "bar"] "1.0.0"
      = Except.ok (Artifact.mk 0 "bar" [("1.0.0", [eCache, eCache])]))
    ∧ ((Artifact.mk 0 "bar" []).append_entry "1.0.0" eCache).versioned_entries
        = [("1.0.0", [eCache, eCache])]
    ∧ [eCache, eCache].length ≠ 1 :=
  ⟨rfl, rfl, by decide⟩

/-! ## C5: `Group.get_as_path` -/

/-- A map that fixes every element of a list leaves the list unchanged. -/
theorem map_id_of_mem {α : Type} (f : α → α) :
    ∀ l : List α, (∀ x ∈ l, f x = x) → l.map f = l := by
  intro l h
  induction l with
  | nil => rfl
  | cons x xs ih =>
    simp only [List.map_cons]
    rw [h x (by simp), ih fun y hy => h y (by simp [hy])]

/-- C5: `get_as_path` replaces every `'.'` by `'/'`:
`"com.example.foo"` becomes `"com/example/foo"`, an identifier without
dots is returned unchanged, and consecutive dots yield an empty path
segment. -/
theorem get_as_path_spec :
    (∀ g : Group, (∀ c ∈ g.id.data, c ≠ '.') → g.get_as_path = g.id)
    ∧ (Group.mk "com.example.foo" [] []).get_as_path = "com/example/foo"
    ∧ pathSegs (Group.mk "a..b" [] []).get_as_path = ["a", "", "b"] := by
  refine ⟨?_, by decide, by decide⟩
  intro g h
  show String.mk (g.id.data.map fun c => if c = '.' then '/' else c) = g.id
  rw [map_id_of_mem _ _ fun c hc => if_neg (h c hc)]

/-- Witness for C5 at the dot-free identifier `"plain"`. -/
theorem get_as_path_spec_witness :
    (∀ c ∈ "plain".data, c ≠ '.')
    ∧ (Group.mk "plain" [] []).get_as_path = "plain" :=
  ⟨by decide, get_as_path_spec.1 (Group.mk "plain" [] []) (by decide)⟩

/-! ## C8: `Group.add_artifact` dedups by object identity only -/

/-- C8: `Artifact` does not override `__eq__`, so `add_artifact`'s
membership test falls back to object identity: two distinct instances
with the same identifier are both appended (their version dicts are kept
separate), while adding the very same instance a second time changes
nothing. -/
theorem add_artifact_identity_only :
    ∀ (g : Group) (a1 a2 : Artifact),
      a1.oid ≠ a2.oid → a1.id = a2.id →
      (g.artifacts.any fun x => pyIs x a1) = false →
      (g.artifacts.any fun x => pyIs x a2) = false →
      ((g.add_artifact a1).add_artifact a2).artifacts = g.artifacts ++ [a1, a2]
      ∧ ((g.add_artifact a1).add_artifact a1).artifacts = g.artifacts ++ [a1] := by
  intro g a1 a2 hoid _hid h1 h2
  have hIs12 : pyIs a1 a2 = false := by
    simp only [pyIs, decide_eq_false_iff_not]
    exact hoid
  have hIs11 : pyIs a1 a1 = true := by simp [pyIs]
  constructor
  · simp [Group.add_artifact, h1, h2, List.any_append, hIs12]
  · simp [Group.add_artifact, h1, List.any_append, hIs11]

/-- Witness for C8: two artifacts that share the identifier `"lib"` but
are distinct objects. -/
theorem add_artifact_identity_only_witness :
    ((((Group.mk "g" [] []).add_artifact (Artifact.mk 0 "lib" [])).add_artifact
        (Artifact.mk 1 "lib" [])).artifacts
      = [Artifact.mk 0 "lib" [], Artifact.mk 1 "lib" []])
    ∧ ((((Group.mk "g" [] []).add_artifact (Artifact.mk 0 "lib" [])).add_artifact
        (Artifact.mk 0 "lib" [])).artifacts
      = [Artifact.mk 0 "lib" []]) :=
  ⟨(add_artifact_identity_only (Group.mk "g" [] []) (Artifact.mk 0 "lib" [])
      (Artifact.mk 1 "lib" []) (by decide) rfl (by decide) (by decide)).1,
   (add_artifact_identity_only (Group.mk "g" [] []) (Artifact.mk 0 "lib" [])
      (Artifact.mk 1 "lib" []) (by decide) rfl (by decide) (by decide)).2⟩

/-! ## C9: `ArtifactEntry` equality, hashing and `get_full_path` -/

/-- C9: two entries are equal exactly when both the file name and the
containing directory match; equal entries hash alike; and the full path
is the containing directory, a `'/'`, and the file name. -/
theorem artifact_entry_eq_hash_full_path :
    ∀ a b : ArtifactEntry,
      (a.pyEq b = true ↔ a.file_name = b.file_name ∧ a.location = b.location)
      ∧ (a.pyEq b = true → a.pyHash = b.pyHash)
      ∧ a.get_full_path = a.location ++ "/" ++ a.file_name := by
  intro a b
  have hiff : a.pyEq b = true ↔ a.file_name = b.file_name ∧ a.location = b.location := by
    simp [ArtifactEntry.pyEq, Prod.ext_iff]
  refine ⟨hiff, ?_, rfl⟩
  intro h
  obtain ⟨h1, h2⟩ := hiff.mp h
  simp [ArtifactEntry.pyHash, h1, h2]

/-- Witness for C9 at a concrete pair of equal entries. -/
theorem artifact_entry_eq_hash_full_path_witness :
    (ArtifactEntry.mk "a.jar" "d1").pyEq (ArtifactEntry.mk "a.jar" "d1") = true
    ∧ (ArtifactEntry.mk "a.jar" "d1").pyHash = (ArtifactEntry.mk "a.jar" "d1").pyHash :=
  ⟨by decide,
   (artifact_entry_eq_hash_full_path (ArtifactEntry.mk "a.jar" "d1")
      (ArtifactEntry.mk "a.jar" "d1")).2.1 (by decide)⟩

/-! ## Path lemmas -/

theorem isUnder_iff (p q : Path) : isUnder p q = true ↔ ∃ s, q = p ++ s := by
  induction p generalizing q with
  | nil => simp [isUnder]
  | cons a as ih =>
    cases q with
    | nil =>
      simp only [isUnder, Bool.false_eq_true, false_iff, not_exists]
      intro s h
      exact absurd h (by simp)
    | cons b bs =>
      simp only [isUnder, Bool.and_eq_true, decide_eq_true_eq, ih]
      constructor
      · rintro ⟨rfl, s, rfl⟩
        exact ⟨s, rfl⟩
      · rintro ⟨s, hs⟩
        injection hs with h1 h2
        exact ⟨h1.symm, s, h2⟩

theorem isUnder_append (p s : Path) : isUnder p (p ++ s) = true :=
  (isUnder_iff p (p ++ s)).mpr ⟨s, rfl⟩

theorem isUnder_refl (p : Path) : isUnder p p = true := by
  simpa using isUnder_append p []

theorem isUnder_extend {t p : Path} (s : Path) (h : isUnder t p = true) :
    isUnder t (p ++ s) = true := by
  obtain ⟨u, rfl⟩ := (isUnder_iff t p).mp h
  simpa using isUnder_append t (u ++ s)

theorem isUnder_iff_leads (p q : Path) : isUnder p q = true ↔ p <+: q := by
  rw [isUnder_iff]
  exact ⟨fun ⟨s, h⟩ => ⟨s, h.symm⟩, fun ⟨s, h⟩ => ⟨s, h.symm⟩⟩

theorem splitChar_ne_nil (c : Char) (l : List Char) : splitChar c l ≠ [] := by
  cases l with
  | nil => simp [splitChar]
  | cons x xs =>
    rw [splitChar]
    cases splitChar c xs with
    | nil => simp
    | cons s rest => by_cases hx : x = c <;> simp [hx]

theorem pathSegs_ne_nil (s : String) : pathSegs s ≠ [] := by
  unfold pathSegs
  simp [splitChar_ne_nil]

/-! ## Pointwise filesystem lemmas -/

theorem fsGet_append_left {fs : Fs} {q : Path} {n : FsNode} (l : Fs)
    (h : fsGet fs q = some n) : fsGet (fs ++ l) q = some n := by
  unfold fsGet at h ⊢
  rw [List.find?_append]
  obtain ⟨e, he, hn⟩ := Option.map_eq_some'.mp h
  rw [he]
  simpa using hn

theorem fsGet_append_single_none {fs : Fs} {q p : Path} {n : FsNode}
    (h : fsGet fs q = none) :
    fsGet (fs ++ [(p, n)]) q = if q = p then some n else none := by
  unfold fsGet at h ⊢
  rw [List.find?_append, Option.map_eq_none'.mp h]
  by_cases hq : q = p
  · subst hq
    simp [List.find?]
  · have : ¬ (p = q) := fun h => hq h.symm
    simp [List.find?, hq, this]

theorem fsGet_map_set_self {p : Path} {n : FsNode} :
    ∀ fs : Fs, pathExists fs p = true →
      fsGet (fs.map fun e => if e.1 = p then (p, n) else e) p = some n := by
  intro fs
  induction fs with
  | nil => intro h; simp [pathExists, fsGet] at h
  | cons e t ih =>
    intro h
    by_cases he : e.1 = p
    · simp only [List.map_cons, if_pos he]
      unfold fsGet
      rw [List.find?_cons_of_pos _ (by simp)]
      rfl
    · have ht : pathExists t p = true := by
        unfold pathExists fsGet at h ⊢
        rwa [List.find?_cons_of_neg _ (by simp [he])] at h
      simp only [List.map_cons, if_neg he]
      unfold fsGet
      rw [List.find?_cons_of_neg _ (by simp [he])]
      exact ih ht

theorem fsGet_map_set_ne {p q : Path} {n : FsNode} (hq : q ≠ p) :
    ∀ fs : Fs, fsGet (fs.map fun e => if e.1 = p then (p, n) else e) q = fsGet fs q := by
  intro fs
  induction fs with
  | nil => rfl
  | cons e t ih =>
    simp only [List.map_cons]
    by_cases he : e.1 = p
    · have h1 : ¬ (p = q) := fun h => hq h.symm
      have h2 : ¬ (e.1 = q) := by rw [he]; exact h1
      rw [if_pos he]
      unfold fsGet
      rw [List.find?_cons_of_neg _ (by simp [h1]),
        List.find?_cons_of_neg _ (by simp [h2])]
      exact ih
    · rw [if_neg he]
      by_cases heq : e.1 = q
      · unfold fsGet
        rw [List.find?_cons_of_pos _ (by simp [heq]),
          List.find?_cons_of_pos _ (by simp [heq])]
      · unfold fsGet
        rw [List.find?_cons_of_neg _ (by simp [heq]),
          List.find?_cons_of_neg _ (by simp [heq])]
        exact ih

theorem pathExists_eq_false_iff (fs : Fs) (p : Path) :
    pathExists fs p = false ↔ fsGet fs p = none := by
  unfold pathExists
  cases fsGet fs p <;> simp

theorem fsGet_fsSet (fs : Fs) (p : Path) (n : FsNode) (q : Path) :
    fsGet (fsSet fs p n) q = if q = p then some n else fsGet fs q := by
  unfold fsSet
  by_cases hq : q = p
  · subst hq
    by_cases h : pathExists fs q
    · simp [h, fsGet_map_set_self fs h]
    · have hn : fsGet fs q = none :=
        (pathExists_eq_false_iff fs q).mp (by simpa using h)
      simp [h, fsGet_append_single_none hn]
  · by_cases h : pathExists fs p
    · simp [h, hq, fsGet_map_set_ne hq fs]
    · cases hfs : fsGet fs q with
      | some m => simp [h, hq, fsGet_append_left _ hfs, hfs]
      | none => simp [h, hq, fsGet_append_single_none hfs, hfs]

theorem fsGet_addDir_of_some {fs : Fs} {q : Path} {n : FsNode} (q0 : Path)
    (h : fsGet fs q = some n) : fsGet (addDir fs q0) q = some n := by
  unfold addDir
  split
  · exact h
  · exact fsGet_append_left _ h

theorem fsGet_addDir_of_none_ne {fs : Fs} {q q0 : Path} (hq : q ≠ q0)
    (h : fsGet fs q = none) : fsGet (addDir fs q0) q = none := by
  unfold addDir
  split
  · exact h
  · rw [fsGet_append_single_none h]
    simp [hq]

theorem fsGet_foldl_addDir_of_some {q : Path} {n : FsNode} :
    ∀ (L : List Path) (fs : Fs), fsGet fs q = some n →
      fsGet (L.foldl addDir fs) q = some n := by
  intro L
  induction L with
  | nil => intro fs h; exact h
  | cons h0 t ih => intro fs h; exact ih _ (fsGet_addDir_of_some h0 h)

theorem fsGet_foldl_addDir_of_none {q : Path} :
    ∀ (L : List Path) (fs : Fs), fsGet fs q = none →
      fsGet (L.foldl addDir fs) q =
        if q ∈ L ∧ q ≠ [] then some FsNode.dirNode else none := by
  intro L
  induction L with
  | nil => intro fs h; simpa using h
  | cons h0 t ih =>
    intro fs h
    by_cases hq : q = h0
    · subst hq
      by_cases hnil : q = []
      · have hskip : addDir fs q = fs := by unfold addDir; simp [hnil]
        rw [List.foldl_cons, hskip, ih fs h]
        simp [hnil]
      · have hex : pathExists fs q = false := by simp [pathExists, h]
        have hdir : fsGet (addDir fs q) q = some FsNode.dirNode := by
          unfold addDir
          rw [if_neg (by simp [hnil, hex])]
          rw [fsGet_append_single_none h]
          simp
        rw [List.foldl_cons, fsGet_foldl_addDir_of_some t _ hdir]
        simp [hnil]
    · have hstep : fsGet (addDir fs h0) q = none := fsGet_addDir_of_none_ne hq h
      rw [List.foldl_cons, ih _ hstep]
      simp [List.mem_cons, hq]

theorem fsGet_makedirs_of_some {fs : Fs} {q : Path} {n : FsNode} (p : Path)
    (h : fsGet fs q = some n) : fsGet (makedirs fs p) q = some n :=
  fsGet_foldl_addDir_of_some _ _ h

theorem fsGet_makedirs_of_none {fs : Fs} {q : Path} (p : Path) (h : fsGet fs q = none) :
    fsGet (makedirs fs p) q =
      if isUnder q p = true ∧ q ≠ [] then some FsNode.dirNode else none := by
  unfold makedirs
  rw [fsGet_foldl_addDir_of_none _ _ h]
  congr 1
  rw [eq_iff_iff]
  constructor
  · rintro ⟨hm, hn⟩
    exact ⟨(isUnder_iff_leads q p).mpr ((List.mem_inits q p).mp hm), hn⟩
  · rintro ⟨hu, hn⟩
    exact ⟨(List.mem_inits q p).mpr ((isUnder_iff_leads q p).mp hu), hn⟩

theorem fsGet_ensureDir_of_some {fs : Fs} {q : Path} {n : FsNode} (p : Path)
    (h : fsGet fs q = some n) : fsGet (ensureDir fs p) q = some n := by
  unfold ensureDir
  split
  · exact h
  · exact fsGet_makedirs_of_some p h

theorem fsGet_ensureDir_none_or_dir {fs : Fs} {q : Path} (p : Path)
    (h : fsGet fs q = none) :
    fsGet (ensureDir fs p) q = none ∨
      fsGet (ensureDir fs p) q = some FsNode.dirNode := by
  unfold ensureDir
  split
  · exact Or.inl h
  · rw [fsGet_makedirs_of_none p h]
    split
    · exact Or.inr rfl
    · exact Or.inl rfl

theorem pathExists_ensureDir_self (fs : Fs) {p : Path} (hp : p ≠ []) :
    pathExists (ensureDir fs p) p = true := by
  by_cases h : pathExists fs p
  · unfold ensureDir
    rw [if_pos h]
    exact h
  · unfold ensureDir
    rw [if_neg h]
    have hn : fsGet fs p = none :=
      (pathExists_eq_false_iff fs p).mp (by simpa using h)
    unfold pathExists
    rw [fsGet_makedirs_of_none p hn]
    simp [isUnder_refl, hp]

theorem pathExists_ensureDir_of_true (fs : Fs) (p q : Path)
    (h : pathExists fs q = true) : pathExists (ensureDir fs p) q = true := by
  unfold pathExists at h ⊢
  cases hfs : fsGet fs q with
  | some n => rw [fsGet_ensureDir_of_some p hfs]; rfl
  | none => rw [hfs] at h; simp at h

theorem fsGet_filter_not_under (fs : Fs) (tgt p : Path) (h : isUnder tgt p = true) :
    fsGet (fs.filter fun e => !(isUnder tgt e.1)) p = none := by
  unfold fsGet
  rw [Option.map_eq_none']
  rw [List.find?_eq_none]
  intro e he
  rcases List.mem_filter.mp he with ⟨_, hkeep⟩
  simp only [Bool.not_eq_true'] at hkeep
  simp only [decide_eq_true_eq]
  intro hep
  rw [hep, h] at hkeep
  exact absurd hkeep (by simp)

/-! ## Fold machinery over `Except` -/

theorem foldlM_cons_ok {σ α : Type} (f : σ → α → Except PyError σ) {a : α}
    {l : List α} {b r : σ} (h : (a :: l).foldlM f b = Except.ok r) :
    ∃ m, f b a = Except.ok m ∧ l.foldlM f m = Except.ok r := by
  rw [List.foldlM_cons] at h
  cases hf : f b a with
  | error e =>
    rw [hf] at h
    exact Except.noConfusion (show Except.error e = Except.ok r from h)
  | ok m =>
    rw [hf] at h
    exact ⟨m, rfl, h⟩

theorem foldlM_ok_split {σ α : Type} (f : σ → α → Except PyError σ) :
    ∀ (l1 l2 : List α) (b r : σ),
      (l1 ++ l2).foldlM f b = Except.ok r →
      ∃ m, l1.foldlM f b = Except.ok m ∧ l2.foldlM f m = Except.ok r := by
  intro l1
  induction l1 with
  | nil => intro l2 b r h; exact ⟨b, rfl, h⟩
  | cons a t ih =>
    intro l2 b r h
    rw [List.cons_append] at h
    obtain ⟨m1, hf, hrest⟩ := foldlM_cons_ok f h
    obtain ⟨m, hm1, hm2⟩ := ih l2 m1 r hrest
    refine ⟨m, ?_, hm2⟩
    rw [List.foldlM_cons, hf]
    exact hm1

theorem foldlM_flatMap_ex {σ α γ : Type} (g : α → List γ)
    (f : σ → γ → Except PyError σ) :
    ∀ (l : List α) (b : σ),
      (l.flatMap g).foldlM f b = l.foldlM (fun b a => (g a).foldlM f b) b := by
  intro l
  induction l with
  | nil => intro b; rfl
  | cons a t ih =>
    intro b
    rw [List.flatMap_cons, List.foldlM_append, List.foldlM_cons]
    cases hm : (g a).foldlM f b with
    | error e => rfl
    | ok m => exact ih m

/-! ## `writeStep` lemmas -/

theorem writeStep_ok_iff (fs : Fs) (op : WriteOp) (fs' : Fs) :
    writeStep fs op = Except.ok fs' ↔
      ∃ c, fsGet (ensureDir fs op.vp) op.src = some (FsNode.file c) ∧
        fs' = fsSet (ensureDir fs op.vp) op.dst (FsNode.file c) := by
  unfold writeStep copyfile
  cases h : fsGet (ensureDir fs op.vp) op.src with
  | some n =>
    cases n with
    | file c =>
      constructor
      · intro hok
        injection hok with hfs
        exact ⟨c, rfl, hfs.symm⟩
      · rintro ⟨c', hc', rfl⟩
        injection hc' with hn
        injection hn with hc
        rw [hc]
    | dirNode =>
      constructor
      · intro hok
        exact Except.noConfusion hok
      · rintro ⟨c', hc', rfl⟩
        exact FsNode.noConfusion (Option.some.inj hc')
  | none =>
    constructor
    · intro hok
      exact Except.noConfusion hok
    · rintro ⟨c', hc', rfl⟩
      exact Option.noConfusion hc'

theorem writeStep_preserves_some {fs fs' : Fs} {op : WriteOp} {q : Path} {n : FsNode}
    (hok : writeStep fs op = Except.ok fs') (hq : q ≠ op.dst)
    (h : fsGet fs q = some n) : fsGet fs' q = some n := by
  obtain ⟨c, hsrc, rfl⟩ := (writeStep_ok_iff fs op fs').mp hok
  rw [fsGet_fsSet, if_neg hq]
  exact fsGet_ensureDir_of_some _ h

theorem writeStep_none_or_dir {fs fs' : Fs} {op : WriteOp} {q : Path}
    (hok : writeStep fs op = Except.ok fs') (hq : q ≠ op.dst)
    (h : fsGet fs q = none ∨ fsGet fs q = some FsNode.dirNode) :
    fsGet fs' q = none ∨ fsGet fs' q = some FsNode.dirNode := by
  obtain ⟨c, hsrc, rfl⟩ := (writeStep_ok_iff fs op fs').mp hok
  rw [fsGet_fsSet, if_neg hq]
  cases h with
  | inl h => exact fsGet_ensureDir_none_or_dir _ h
  | inr h => exact Or.inr (fsGet_ensureDir_of_some _ h)

theorem writeStep_isSome {fs fs' : Fs} {op : WriteOp} {q : Path}
    (hok : writeStep fs op = Except.ok fs')
    (h : (fsGet fs q).isSome = true) : (fsGet fs' q).isSome = true := by
  obtain ⟨c, hsrc, rfl⟩ := (writeStep_ok_iff fs op fs').mp hok
  rw [fsGet_fsSet]
  by_cases hq : q = op.dst
  · rw [if_pos hq]
    rfl
  · rw [if_neg hq]
    cases hfs : fsGet fs q with
    | none => rw [hfs] at h; exact absurd h (by simp)
    | some n => rw [fsGet_ensureDir_of_some _ hfs]; rfl

theorem writeStep_result {fs fs' : Fs} {op : WriteOp}
    (hok : writeStep fs op = Except.ok fs') :
    ∃ c, fsGet (ensureDir fs op.vp) op.src = some (FsNode.file c) ∧
      fsGet fs' op.dst = some (FsNode.file c) := by
  obtain ⟨c, hsrc, rfl⟩ := (writeStep_ok_iff fs op fs').mp hok
  exact ⟨c, hsrc, by rw [fsGet_fsSet, if_pos rfl]⟩

theorem writeStep_vp_exists {fs fs' : Fs} {op : WriteOp}
    (hok : writeStep fs op = Except.ok fs') (hvp : op.vp ≠ []) :
    pathExists fs' op.vp = true := by
  obtain ⟨c, hsrc, rfl⟩ := (writeStep_ok_iff fs op fs').mp hok
  unfold pathExists
  rw [fsGet_fsSet]
  by_cases hq : op.vp = op.dst
  · rw [if_pos hq]
    rfl
  · rw [if_neg hq]
    have h2 := pathExists_ensureDir_self fs hvp
    unfold pathExists at h2
    exact h2

/-- The source is read through `ensureDir`; if it is readable as a file
there, it was already a file before. -/
theorem read_through_ensureDir {fs : Fs} {p q : Path} {c : String}
    (h : fsGet (ensureDir fs p) q = some (FsNode.file c)) :
    fsGet fs q = some (FsNode.file c) := by
  cases hfs : fsGet fs q with
  | some n =>
    rw [fsGet_ensureDir_of_some p hfs] at h
    rw [← h]
  | none =>
    rcases fsGet_ensureDir_none_or_dir p hfs with h0 | h0 <;> rw [h0] at h
    · exact Option.noConfusion h
    · exact FsNode.noConfusion (Option.some.inj h)

/-! ## Fold-level write lemmas -/

theorem ops_preserve_some {q : Path} {n : FsNode} :
    ∀ (ops : List WriteOp) (fs fs' : Fs),
      ops.foldlM writeStep fs = Except.ok fs' →
      (∀ op ∈ ops, op.dst ≠ q) →
      fsGet fs q = some n → fsGet fs' q = some n := by
  intro ops
  induction ops with
  | nil =>
    intro fs fs' h _ hget
    injection h with h
    rw [← h]
    exact hget
  | cons op t ih =>
    intro fs fs' h hnd hget
    obtain ⟨m, hstep, hrest⟩ := foldlM_cons_ok _ h
    have h1 : fsGet m q = some n :=
      writeStep_preserves_some hstep
        (fun hq => hnd op (List.mem_cons_self op t) hq.symm) hget
    exact ih m fs' hrest (fun o ho => hnd o (List.mem_cons_of_mem _ ho)) h1

theorem ops_none_or_dir {q : Path} :
    ∀ (ops : List WriteOp) (fs fs' : Fs),
      ops.foldlM writeStep fs = Except.ok fs' →
      (∀ op ∈ ops, op.dst ≠ q) →
      (fsGet fs q = none ∨ fsGet fs q = some FsNode.dirNode) →
      (fsGet fs' q = none ∨ fsGet fs' q = some FsNode.dirNode) := by
  intro ops
  induction ops with
  | nil =>
    intro fs fs' h _ hget
    injection h with h
    rw [← h]
    exact hget
  | cons op t ih =>
    intro fs fs' h hnd hget
    obtain ⟨m, hstep, hrest⟩ := foldlM_cons_ok _ h
    have h1 := writeStep_none_or_dir hstep
      (fun hq => hnd op (List.mem_cons_self op t) hq.symm) hget
    exact ih m fs' hrest (fun o ho => hnd o (List.mem_cons_of_mem _ ho)) h1

theorem ops_isSome {q : Path} :
    ∀ (ops : List WriteOp) (fs fs' : Fs),
      ops.foldlM writeStep fs = Except.ok fs' →
      (fsGet fs q).isSome = true → (fsGet fs' q).isSome = true := by
  intro ops
  induction ops with
  | nil =>
    intro fs fs' h hget
    injection h with h
    rw [← h]
    exact hget
  | cons op t ih =>
    intro fs fs' h hget
    obtain ⟨m, hstep, hrest⟩ := foldlM_cons_ok _ h
    exact ih m fs' hrest (writeStep_isSome hstep hget)

/-- Through a successful run, a path that is never a copy destination and
is readable as a file at some step was that same file from the start to
the end. -/
theorem ops_src_stable {ops : List WriteOp} {fs fs' : Fs} {op : WriteOp}
    (h : ops.foldlM writeStep fs = Except.ok fs') (hmem : op ∈ ops)
    (hnd : ∀ op2 ∈ ops, op2.dst ≠ op.src) :
    ∃ c, fsGet fs op.src = some (FsNode.file c) ∧
      fsGet fs' op.src = some (FsNode.file c) := by
  obtain ⟨l1, l2, rfl⟩ := List.append_of_mem hmem
  obtain ⟨m1, h1, hrest⟩ := foldlM_ok_split _ l1 (op :: l2) _ _ h
  obtain ⟨m2, hstep, h2⟩ := foldlM_cons_ok _ hrest
  obtain ⟨c, hsrc, hm2⟩ := (writeStep_ok_iff m1 op m2).mp hstep
  have hm1src : fsGet m1 op.src = some (FsNode.file c) := read_through_ensureDir hsrc
  have hl1nd : ∀ o ∈ l1, o.dst ≠ op.src := fun o ho =>
    hnd o (List.mem_append_left _ ho)
  have hl2nd : ∀ o ∈ l2, o.dst ≠ op.src := fun o ho =>
    hnd o (List.mem_append_right _ (List.mem_cons_of_mem _ ho))
  have hself : op.dst ≠ op.src :=
    hnd op (List.mem_append_right _ (List.mem_cons_self op l2))
  have hfssrc : fsGet fs op.src = some (FsNode.file c) := by
    cases hfs : fsGet fs op.src with
    | some n =>
      have hn : fsGet m1 op.src = some n := ops_preserve_some l1 fs m1 h1 hl1nd hfs
      rw [hn] at hm1src
      exact hm1src
    | none =>
      rcases ops_none_or_dir l1 fs m1 h1 hl1nd (Or.inl hfs) with h0 | h0 <;>
        rw [h0] at hm1src
      · exact Option.noConfusion hm1src
      · exact FsNode.noConfusion (Option.some.inj hm1src)
  have hm2src : fsGet m2 op.src = some (FsNode.file c) := by
    rw [hm2, fsGet_fsSet, if_neg (fun hq => hself hq.symm)]
    exact fsGet_ensureDir_of_some _ hm1src
  exact ⟨c, hfssrc, ops_preserve_some l2 m2 fs' h2 hl2nd hm2src⟩

/-- The final value at a destination written for the last time at the
distinguished occurrence: the content read from the source at the start. -/
theorem ops_last_write {l1 l2 : List WriteOp} {op : WriteOp} {fs fs' : Fs}
    (h : (l1 ++ op :: l2).foldlM writeStep fs = Except.ok fs')
    (hlast : ∀ op2 ∈ l2, op2.dst ≠ op.dst)
    (hsrcnd : ∀ op2 ∈ l1 ++ op :: l2, op2.dst ≠ op.src) :
    ∃ c, fsGet fs op.src = some (FsNode.file c) ∧
      fsGet fs' op.dst = some (FsNode.file c) := by
  obtain ⟨m1, h1, hrest⟩ := foldlM_ok_split _ l1 (op :: l2) _ _ h
  obtain ⟨m2, hstep, h2⟩ := foldlM_cons_ok _ hrest
  obtain ⟨c, hsrc, hm2⟩ := (writeStep_ok_iff m1 op m2).mp hstep
  have hm1src : fsGet m1 op.src = some (FsNode.file c) := read_through_ensureDir hsrc
  have hl1nd : ∀ o ∈ l1, o.dst ≠ op.src := fun o ho =>
    hsrcnd o (List.mem_append_left _ ho)
  have hfssrc : fsGet fs op.src = some (FsNode.file c) := by
    cases hfs : fsGet fs op.src with
    | some n =>
      have hn : fsGet m1 op.src = some n := ops_preserve_some l1 fs m1 h1 hl1nd hfs
      rw [hn] at hm1src
      exact hm1src
    | none =>
      rcases ops_none_or_dir l1 fs m1 h1 hl1nd (Or.inl hfs) with h0 | h0 <;>
        rw [h0] at hm1src
      · exact Option.noConfusion hm1src
      · exact FsNode.noConfusion (Option.some.inj hm1src)
  have hm2dst : fsGet m2 op.dst = some (FsNode.file c) := by
    rw [hm2, fsGet_fsSet, if_pos rfl]
  exact ⟨c, hfssrc,
    ops_preserve_some l2 m2 fs' h2 (fun o ho hq => hlast o ho hq) hm2dst⟩

/-- After a successful run every version directory that some operation
ensured exists in the final state. -/
theorem ops_vp_exists {ops : List WriteOp} {fs fs' : Fs} {op : WriteOp}
    (h : ops.foldlM writeStep fs = Except.ok fs') (hmem : op ∈ ops)
    (hvp : op.vp ≠ []) : pathExists fs' op.vp = true := by
  obtain ⟨l1, l2, rfl⟩ := List.append_of_mem hmem
  obtain ⟨m1, h1, hrest⟩ := foldlM_ok_split _ l1 (op :: l2) _ _ h
  obtain ⟨m2, hstep, h2⟩ := foldlM_cons_ok _ hrest
  have hm2 : pathExists m2 op.vp = true := writeStep_vp_exists hstep hvp
  exact ops_isSome l2 m2 fs' h2 hm2

/-! ## The writer as its flat operation list -/

theorem write_eq_foldlM_entryOps (fs : Fs) (repo : ArtifactRepo) (target_dir : Path) :
    MavenRepoWriter.write fs repo target_dir =
      (entryOps repo target_dir).foldlM writeStep (ensureDir fs target_dir) := by
  unfold MavenRepoWriter.write entryOps
  simp only [foldlM_flatMap_ex, List.foldlM_map]

theorem entryOps_shape {repo : ArtifactRepo} {target_dir : Path} :
    ∀ op ∈ entryOps repo target_dir,
      (∃ s, op.vp = target_dir ++ s ∧ s ≠ []) ∧
      (∃ s2, op.dst = op.vp ++ s2 ∧ s2 ≠ []) := by
  intro op hop
  unfold entryOps at hop
  simp only [List.mem_flatMap, List.mem_map] at hop
  obtain ⟨gg, _, a, _, ve, _, e, _, rfl⟩ := hop
  constructor
  · refine ⟨pathSegs (Group.get_as_path gg.2) ++ (pathSegs a.id ++ pathSegs ve.1), ?_, ?_⟩
    · unfold entryOp pjoin
      simp [List.append_assoc]
    · simp [pathSegs_ne_nil]
  · exact ⟨pathSegs e.file_name, rfl, pathSegs_ne_nil _⟩

theorem entryOps_vp_ne_nil {repo : ArtifactRepo} {target_dir : Path} {op : WriteOp}
    (hop : op ∈ entryOps repo target_dir) : op.vp ≠ [] := by
  obtain ⟨⟨s, hvp, hs⟩, _⟩ := entryOps_shape op hop
  rw [hvp]
  simp [hs]

theorem entryOps_dst_under {repo : ArtifactRepo} {target_dir : Path} {op : WriteOp}
    (hop : op ∈ entryOps repo target_dir) : isUnder target_dir op.dst = true := by
  obtain ⟨⟨s, hvp, _⟩, ⟨s2, hdst, _⟩⟩ := entryOps_shape op hop
  rw [hdst, hvp, List.append_assoc]
  exact isUnder_append _ _

/-! ## `Except` bind helpers -/

theorem ok_bind {σ τ : Type} (x : σ) (f : σ → Except PyError τ) :
    (Except.ok x >>= f) = f x := rfl

theorem error_bind {σ τ : Type} (e : PyError) (f : σ → Except PyError τ) :
    ((Except.error e : Except PyError σ) >>= f) = Except.error e := rfl

theorem bind_ok_inv {σ τ : Type} {x : Except PyError σ} {f : σ → Except PyError τ}
    {r : τ} (h : (x >>= f) = Except.ok r) :
    ∃ v, x = Except.ok v ∧ f v = Except.ok r := by
  cases x with
  | error e => exact Except.noConfusion (show Except.error e = Except.ok r from h)
  | ok v => exact ⟨v, rfl, h⟩

theorem ensureDir_of_exists {fs : Fs} {p : Path} (h : pathExists fs p = true) :
    ensureDir fs p = fs := by
  unfold ensureDir
  rw [if_pos h]

theorem ensureDir_nil (fs : Fs) : ensureDir fs [] = fs := by
  unfold ensureDir
  split
  · rfl
  · unfold makedirs addDir
    simp

theorem pathExists_fsSet_of_true {fs : Fs} {q : Path} (p : Path) (n : FsNode)
    (h : pathExists fs q = true) : pathExists (fsSet fs p n) q = true := by
  unfold pathExists at h ⊢
  rw [fsGet_fsSet]
  by_cases hq : q = p
  · rw [if_pos hq]
    rfl
  · rw [if_neg hq]
    exact h

/-! ## C3: what the writer guarantees per entry -/

/-- Two entries of the same version that share a file name but come from
different content-hash directories, with different bytes. -/
def eC31 : ArtifactEntry := ArtifactEntry.mk "f.jar" "s1"

def eC32 : ArtifactEntry := ArtifactEntry.mk "f.jar" "s2"

def fsC3 : Fs :=
  [(["s1", "f.jar"], FsNode.file "A"), (["s2", "f.jar"], FsNode.file "B")]

def repoC3 : ArtifactRepo :=
  ArtifactRepo.mk
    [("g", Group.mk "g" [] [Artifact.mk 0 "a" [("1.0", [eC31, eC32])]])]

def fsC3res : Fs :=
  (MavenRepoWriter.write fsC3 repoC3 ["t"]).toOption.getD []

/-- C3 counterexample: on a repository where two entries of the same
version share the file name `f.jar`, the write succeeds but the later
entry overwrites the earlier one, so the earlier entry (source bytes
`"A"`) does NOT have a byte-identical copy at
`t/g/a/1.0/f.jar` — the target holds `"B"`. -/
theorem write_not_faithful_on_duplicate_file_names :
    MavenRepoWriter.write fsC3 repoC3 ["t"] = Except.ok fsC3res
    ∧ eC31 ∈ [eC31, eC32]
    ∧ fsGet fsC3 (pathSegs eC31.get_full_path) = some (FsNode.file "A")
    ∧ fsGet fsC3res
        (pjoin (pjoin (pjoin (pjoin ["t"] (Group.get_as_path (Group.mk "g" []
          [Artifact.mk 0 "a" [("1.0", [eC31, eC32])]]))) "a") "1.0") eC31.file_name)
        = some (FsNode.file "B")
    ∧ some (FsNode.file "B") ≠ some (FsNode.file "A") :=
  ⟨rfl, by decide, rfl, rfl, by decide⟩

/-- The writer's operation for a given entry is among the flat operation
list. -/
theorem entryOp_mem_entryOps {repo : ArtifactRepo} {target_dir : Path}
    {gid : String} {g : Group} (hg : (gid, g) ∈ repo.groups)
    {a : Artifact} (ha : a ∈ g.artifacts)
    {v : String} {es : List ArtifactEntry} (hv : (v, es) ∈ a.versioned_entries)
    {e : ArtifactEntry} (he : e ∈ es) :
    entryOp (pjoin (pjoin (pjoin target_dir g.get_as_path) a.id) v) e
      ∈ entryOps repo target_dir := by
  unfold entryOps
  simp only [List.mem_flatMap, List.mem_map]
  exact ⟨(gid, g), hg, a, ha, (v, es), hv, e, he, rfl⟩

/-- C3 (amended): provided no two entries map to the same target file path
and no entry's source file lies inside the target tree, after a
successful write every entry has a byte-identical copy of its source file
at `target/<group-as-path>/<artifact-id>/<version>/<file_name>`, and the
version directory exists (created on demand). -/
theorem write_entry_copied (fs fs' : Fs) (repo : ArtifactRepo) (target_dir : Path)
    (hok : MavenRepoWriter.write fs repo target_dir = Except.ok fs')
    (hnodup : ((entryOps repo target_dir).map WriteOp.dst).Nodup)
    (hsrc : ∀ op ∈ entryOps repo target_dir, isUnder target_dir op.src = false)
    {gid : String} {g : Group} (hg : (gid, g) ∈ repo.groups)
    {a : Artifact} (ha : a ∈ g.artifacts)
    {v : String} {es : List ArtifactEntry} (hv : (v, es) ∈ a.versioned_entries)
    {e : ArtifactEntry} (he : e ∈ es) :
    ∃ c, fsGet fs (pathSegs e.get_full_path) = some (FsNode.file c)
      ∧ fsGet fs'
          (pjoin (pjoin (pjoin (pjoin target_dir g.get_as_path) a.id) v) e.file_name)
          = some (FsNode.file c)
      ∧ pathExists fs' (pjoin (pjoin (pjoin target_dir g.get_as_path) a.id) v) = true := by
  rw [write_eq_foldlM_entryOps] at hok
  set vp := pjoin (pjoin (pjoin target_dir g.get_as_path) a.id) v with hvp
  have hmem : entryOp vp e ∈ entryOps repo target_dir :=
    entryOp_mem_entryOps hg ha hv he
  obtain ⟨l1, l2, hsplit⟩ := List.append_of_mem hmem
  have hlast : ∀ op2 ∈ l2, op2.dst ≠ (entryOp vp e).dst := by
    intro op2 hop2 hdst
    have h1 : ((entryOps repo target_dir).map WriteOp.dst).Nodup := hnodup
    rw [hsplit, List.map_append, List.map_cons] at h1
    rcases (List.nodup_append.mp h1) with ⟨_, h2, _⟩
    rcases List.nodup_cons.mp h2 with ⟨hni, _⟩
    exact hni (hdst ▸ List.mem_map_of_mem WriteOp.dst hop2)
  have hsrcnd : ∀ op2 ∈ l1 ++ entryOp vp e :: l2, op2.dst ≠ (entryOp vp e).src := by
    intro op2 hop2 hdst
    have hu : isUnder target_dir op2.dst = true :=
      entryOps_dst_under (hsplit ▸ hop2)
    have hnu : isUnder target_dir (entryOp vp e).src = false :=
      hsrc _ hmem
    rw [hdst, hnu] at hu
    exact Bool.noConfusion hu
  rw [hsplit] at hok
  obtain ⟨c, hsrcv, hdstv⟩ := ops_last_write hok hlast hsrcnd
  have hvpex : pathExists fs' (entryOp vp e).vp = true := by
    refine ops_vp_exists hok ?_ (entryOps_vp_ne_nil hmem)
    exact List.mem_append_right _ (List.mem_cons_self _ _)
  exact ⟨c, read_through_ensureDir hsrcv, hdstv, hvpex⟩

/-- A one-entry cache image used to instantiate the writer theorems. -/
def fsW3 : Fs := [(["cache", "h1", "lib.jar"], FsNode.file "BYTES")]

def eW3 : ArtifactEntry := ArtifactEntry.mk "lib.jar" "cache/h1"

def gW3 : Group := Group.mk "com.ex" [] [Artifact.mk 0 "lib" [("1.0", [eW3])]]

def repoW3 : ArtifactRepo := ArtifactRepo.mk [("com.ex", gW3)]

def fsW3res : Fs :=
  (MavenRepoWriter.write fsW3 repoW3 ["repo"]).toOption.getD []

/-- Witness for the amended C3 at a concrete one-entry repository. -/
theorem write_entry_copied_witness :
    fsGet fsW3 (pathSegs eW3.get_full_path) = some (FsNode.file "BYTES")
    ∧ fsGet fsW3res
        (pjoin (pjoin (pjoin (pjoin ["repo"] gW3.get_as_path) "lib") "1.0") eW3.file_name)
        = some (FsNode.file "BYTES")
    ∧ pathExists fsW3res (pjoin (pjoin (pjoin ["repo"] gW3.get_as_path) "lib") "1.0")
        = true := by
  obtain ⟨c, h1, h2, h3⟩ :=
    write_entry_copied fsW3 fsW3res repoW3 ["repo"] rfl (by decide) (by decide)
      (show ("com.ex", gW3) ∈ repoW3.groups by decide)
      (show Artifact.mk 0 "lib" [("1.0", [eW3])] ∈ gW3.artifacts by decide)
      (show ("1.0", [eW3]) ∈ (Artifact.mk 0 "lib" [("1.0", [eW3])]).versioned_entries by decide)
      (show eW3 ∈ [eW3] by decide)
  have h0 : fsGet fsW3 (pathSegs eW3.get_full_path) = some (FsNode.file "BYTES") := rfl
  rw [h0] at h1
  injection h1 with h1n
  injection h1n with hc
  rw [← hc] at h2
  exact ⟨h0, h2, h3⟩

/-! ## C6: scan, then (iff requested) pre-clean, then write -/

/-- C6: with a successful scan and an existing target directory, the run
with the pre-clean flag first removes everything at or under the target
(the cleaned state holds nothing under it) and only then invokes the
writer on the cleaned state, while the run without the flag invokes the
writer on the untouched state — the target is deleted iff the flag is
set. -/
theorem main_scan_clean_write_order (fs : Fs) (cache tgt : Path) (repo : ArtifactRepo)
    (hload : GradleCache.load fs cache = Except.ok repo)
    (htgt : fsGet fs tgt = some FsNode.dirNode) :
    cleanup_mvn_dir fs tgt = Except.ok (fs.filter fun e => !(isUnder tgt e.1))
    ∧ (∀ p, isUnder tgt p = true →
        fsGet (fs.filter fun e => !(isUnder tgt e.1)) p = none)
    ∧ main_run fs (Args.mk cache tgt true)
        = MavenRepoWriter.write (fs.filter fun e => !(isUnder tgt e.1)) repo tgt
    ∧ main_run fs (Args.mk cache tgt false) = MavenRepoWriter.write fs repo tgt := by
  have hclean : cleanup_mvn_dir fs tgt
      = Except.ok (fs.filter fun e => !(isUnder tgt e.1)) := by
    unfold cleanup_mvn_dir
    rw [htgt]
  refine ⟨hclean, fun p hp => fsGet_filter_not_under fs tgt p hp, ?_, ?_⟩
  · show (GradleCache.load fs cache >>= fun repo =>
        cleanup_mvn_dir fs tgt >>= fun fs2 => MavenRepoWriter.write fs2 repo tgt) = _
    rw [hload, ok_bind, hclean, ok_bind]
  · show (GradleCache.load fs cache >>= fun repo =>
        Except.ok fs >>= fun fs2 => MavenRepoWriter.write fs2 repo tgt) = _
    rw [hload, ok_bind, ok_bind]

/-- A world holding the one-jar cache plus a non-empty target directory
`t`. -/
def fsC6 : Fs :=
  fsCache ++ [(["t"], FsNode.dirNode), (["t", "old.txt"], FsNode.file "X")]

def repoC6 : ArtifactRepo :=
  (GradleCache.load fsC6 ["c"]).toOption.getD (ArtifactRepo.mk [])

/-- Witness for C6: scanning `fsC6` succeeds, pre-cleaning removes the
stale `t/old.txt`, and both runs reduce to the writer on the right
state. -/
theorem main_scan_clean_write_order_witness :
    main_run fsC6 (Args.mk ["c"] ["t"] true)
        = MavenRepoWriter.write (fsC6.filter fun e => !(isUnder ["t"] e.1)) repoC6 ["t"]
    ∧ fsGet (fsC6.filter fun e => !(isUnder ["t"] e.1)) ["t", "old.txt"] = none
    ∧ main_run fsC6 (Args.mk ["c"] ["t"] false)
        = MavenRepoWriter.write fsC6 repoC6 ["t"] :=
  ⟨(main_scan_clean_write_order fsC6 ["c"] ["t"] repoC6 rfl rfl).2.2.1,
   (main_scan_clean_write_order fsC6 ["c"] ["t"] repoC6 rfl rfl).2.1
     ["t", "old.txt"] (by decide),
   (main_scan_clean_write_order fsC6 ["c"] ["t"] repoC6 rfl rfl).2.2.2⟩

/-! ## C10: pre-clean against a missing target directory -/

/-- C10: when the target directory does not exist, a run with the
pre-clean flag aborts with `FileNotFoundError` from `shutil.rmtree`
(before the writer does anything), while without the flag the writer
simply creates the missing target directory. -/
theorem pre_clean_missing_target_aborts (fs : Fs) (cache tgt : Path)
    (repo : ArtifactRepo)
    (hload : GradleCache.load fs cache = Except.ok repo)
    (hmiss : fsGet fs tgt = none) (htgt : tgt ≠ []) :
    main_run fs (Args.mk cache tgt true) = Except.error PyError.fileNotFoundError
    ∧ ∀ fs', main_run fs (Args.mk cache tgt false) = Except.ok fs' →
        pathExists fs' tgt = true := by
  have hclean : cleanup_mvn_dir fs tgt = Except.error PyError.fileNotFoundError := by
    unfold cleanup_mvn_dir
    rw [hmiss]
  constructor
  · show (GradleCache.load fs cache >>= fun repo =>
        cleanup_mvn_dir fs tgt >>= fun fs2 => MavenRepoWriter.write fs2 repo tgt) = _
    rw [hload, ok_bind, hclean, error_bind]
  · intro fs' h
    have hmain : main_run fs (Args.mk cache tgt false)
        = MavenRepoWriter.write fs repo tgt := by
      show (GradleCache.load fs cache >>= fun repo =>
          Except.ok fs >>= fun fs2 => MavenRepoWriter.write fs2 repo tgt) = _
      rw [hload, ok_bind, ok_bind]
    rw [hmain, write_eq_foldlM_entryOps] at h
    exact ops_isSome _ _ _ h (pathExists_ensureDir_self fs htgt)

/-- The repository scanned from `fsCache`. -/
def repoCache : ArtifactRepo :=
  (GradleCache.load fsCache ["c"]).toOption.getD (ArtifactRepo.mk [])

/-- The final world of a flag-less run of the tool on `fsCache` with the
missing target `t`. -/
def fsC10res : Fs :=
  (main_run fsCache (Args.mk ["c"] ["t"] false)).toOption.getD []

/-- Witness for C10 on the one-jar cache and the absent target `t`. -/
theorem pre_clean_missing_target_aborts_witness :
    main_run fsCache (Args.mk ["c"] ["t"] true) = Except.error PyError.fileNotFoundError
    ∧ pathExists fsC10res ["t"] = true :=
  ⟨(pre_clean_missing_target_aborts fsCache ["c"] ["t"] repoCache rfl rfl
      (by decide)).1,
   (pre_clean_missing_target_aborts fsCache ["c"] ["t"] repoCache rfl rfl
      (by decide)).2 fsC10res rfl⟩

/-! ## C7: re-running the writer changes nothing -/

/-- Re-run simulation: if the suffix `l2` of a successfully completed
operation list is replayed from a state `g` that agrees with the final
state `fs1` everywhere except possibly at destinations still to be
written, and every version directory `l2` needs already exists in `g`,
then the replay succeeds and lands exactly on `fs1` (pointwise). -/
theorem ops_rerun (OPS : List WriteOp) (F0 fs1 : Fs)
    (hrun1 : OPS.foldlM writeStep F0 = Except.ok fs1)
    (hnd : ∀ op ∈ OPS, ∀ op2 ∈ OPS, op2.dst ≠ op.src) :
    ∀ (l2 l1 : List WriteOp), OPS = l1 ++ l2 →
      ∀ g : Fs,
        (∀ p, (∀ op ∈ l2, op.dst ≠ p) → fsGet g p = fsGet fs1 p) →
        (∀ op ∈ l2, pathExists g op.vp = true) →
        ∃ fs2, l2.foldlM writeStep g = Except.ok fs2
          ∧ ∀ p, fsGet fs2 p = fsGet fs1 p := by
  intro l2
  induction l2 with
  | nil =>
    intro l1 hOPS g hg1 hg2
    exact ⟨g, rfl, fun p => hg1 p (by simp)⟩
  | cons op l2' ih =>
    intro l1 hOPS g hg1 hg2
    have hmemcons : ∀ o ∈ op :: l2', o ∈ OPS := by
      intro o ho
      rw [hOPS]
      exact List.mem_append_right _ ho
    have hopmem : op ∈ OPS := hmemcons op (List.mem_cons_self _ _)
    have hndsrc : ∀ op2 ∈ OPS, op2.dst ≠ op.src := fun op2 h2 => hnd op hopmem op2 h2
    obtain ⟨c, hF0src, hfs1src⟩ := ops_src_stable hrun1 hopmem hndsrc
    have hgsrc : fsGet g op.src = some (FsNode.file c) := by
      rw [hg1 op.src (fun o ho => hndsrc o (hmemcons o ho))]
      exact hfs1src
    have hvp : pathExists g op.vp = true := hg2 op (List.mem_cons_self _ _)
    have hstep : writeStep g op = Except.ok (fsSet g op.dst (FsNode.file c)) := by
      unfold writeStep copyfile
      rw [ensureDir_of_exists hvp, hgsrc]
    have hg1' : ∀ p, (∀ o ∈ l2', o.dst ≠ p) →
        fsGet (fsSet g op.dst (FsNode.file c)) p = fsGet fs1 p := by
      intro p hp
      rw [fsGet_fsSet]
      by_cases hpd : p = op.dst
      · rw [if_pos hpd]
        subst hpd
        have hrun1' : (l1 ++ op :: l2').foldlM writeStep F0 = Except.ok fs1 := by
          rw [← hOPS]
          exact hrun1
        obtain ⟨c', hF0src', hfs1dst⟩ :=
          ops_last_write hrun1' (fun o ho => hp o ho)
            (fun op2 h2 => hndsrc op2 (by rw [hOPS]; exact h2))
        rw [hF0src] at hF0src'
        injection hF0src' with hn
        injection hn with hcc
        rw [hfs1dst, hcc]
      · rw [if_neg hpd]
        refine hg1 p ?_
        intro o ho
        rcases List.mem_cons.mp ho with rfl | ho'
        · exact fun h => hpd h.symm
        · exact hp o ho'
    have hg2' : ∀ o ∈ l2', pathExists (fsSet g op.dst (FsNode.file c)) o.vp = true := by
      intro o ho
      exact pathExists_fsSet_of_true _ _ (hg2 o (List.mem_cons_of_mem _ ho))
    obtain ⟨fs2, hfold, hpt⟩ := ih (l1 ++ [op]) (by simp [hOPS])
      (fsSet g op.dst (FsNode.file c)) hg1' hg2'
    refine ⟨fs2, ?_, hpt⟩
    rw [List.foldlM_cons, hstep]
    exact hfold

/-- C7: a second run of the writer on the state a first successful run
left behind (same repository, same target) succeeds and leaves every path
of the filesystem exactly as the first run left it — the copy step
overwrites files already present, so the run is idempotent.  The sources
are required to lie outside the target tree (the tool reads the cache and
writes the target). -/
theorem write_idempotent (fs fs1 : Fs) (repo : ArtifactRepo) (target_dir : Path)
    (hok : MavenRepoWriter.write fs repo target_dir = Except.ok fs1)
    (hsrc : ∀ op ∈ entryOps repo target_dir, isUnder target_dir op.src = false) :
    ∃ fs2, MavenRepoWriter.write fs1 repo target_dir = Except.ok fs2
      ∧ ∀ p, fsGet fs2 p = fsGet fs1 p := by
  rw [write_eq_foldlM_entryOps] at hok
  have hnd : ∀ op ∈ entryOps repo target_dir, ∀ op2 ∈ entryOps repo target_dir,
      op2.dst ≠ op.src := by
    intro op hop op2 hop2 heq
    have h1 := entryOps_dst_under hop2
    rw [heq, hsrc op hop] at h1
    exact Bool.noConfusion h1
  have hens : ensureDir fs1 target_dir = fs1 := by
    by_cases htz : target_dir = []
    · rw [htz]
      exact ensureDir_nil fs1
    · exact ensureDir_of_exists
        (ops_isSome _ _ _ hok (pathExists_ensureDir_self fs htz))
  obtain ⟨fs2, hfold, hpt⟩ :=
    ops_rerun (entryOps repo target_dir) (ensureDir fs target_dir) fs1 hok hnd
      (entryOps repo target_dir) [] rfl fs1
      (fun p _ => rfl)
      (fun op hop => ops_vp_exists hok hop (entryOps_vp_ne_nil hop))
  refine ⟨fs2, ?_, hpt⟩
  rw [write_eq_foldlM_entryOps, hens]
  exact hfold

/-- The state after running the writer a second time on `fsW3res`. -/
def fsW7res2 : Fs :=
  (MavenRepoWriter.write fsW3res repoW3 ["repo"]).toOption.getD []

/-- Witness for C7 on the concrete one-entry repository: the second run
succeeds and the written file is unchanged. -/
theorem write_idempotent_witness :
    MavenRepoWriter.write fsW3res repoW3 ["repo"] = Except.ok fsW7res2
    ∧ fsGet fsW7res2 ["repo", "com", "ex", "lib", "1.0", "lib.jar"]
        = fsGet fsW3res ["repo", "com", "ex", "lib", "1.0", "lib.jar"] := by
  obtain ⟨fs2, hw, hpt⟩ := write_idempotent fsW3 fsW3res repoW3 ["repo"] rfl (by decide)
  have hval : fsW7res2 = fs2 := by
    unfold fsW7res2
    rw [hw]
    rfl
  rw [hval]
  exact ⟨hw, hpt _⟩

/-! ## C4: scanner errors propagate -/

theorem dictContains_eq_false {α : Type} {d : List (String × α)} {k : String}
    (h : dictGet d k = none) : dictContains d k = false := by
  unfold dictGet at h
  unfold dictContains
  rw [Option.map_eq_none'] at h
  rw [List.any_eq_false]
  intro e he
  exact List.find?_eq_none.mp h e he

theorem dictSet_absent {α : Type} {d : List (String × α)} {k : String} (v : α)
    (h : dictGet d k = none) : dictSet d k v = d ++ [(k, v)] := by
  unfold dictSet
  rw [dictContains_eq_false h]
  simp

/-- A successful `add_group` is exactly an insertion of a fresh key: on an
existing key the merge raises. -/
theorem add_group_ok {r : ArtifactRepo} {g : Group} {r' : ArtifactRepo}
    (h : r.add_group g = Except.ok r') :
    dictGet r.groups g.id = none ∧ r'.groups = r.groups ++ [(g.id, g)] := by
  unfold ArtifactRepo.add_group at h
  cases hd : dictGet r.groups g.id with
  | some ex =>
    rw [hd] at h
    exact Except.noConfusion
      (show Except.error PyError.attributeError = Except.ok r' from h)
  | none =>
    rw [hd] at h
    injection h with h
    refine ⟨rfl, ?_⟩
    rw [← h]
    exact dictSet_absent g hd

theorem add_group_mem {r r' : ArtifactRepo} {g : Group}
    (h : r.add_group g = Except.ok r') {x : String × Group} (hx : x ∈ r.groups) :
    x ∈ r'.groups := by
  rw [(add_group_ok h).2]
  exact List.mem_append_left _ hx

theorem groups_inner_fold_mem {mp : Path} :
    ∀ (names : List String) (r r' : ArtifactRepo),
      names.foldlM (fun r group_id =>
        r.add_group (Group.mk group_id (pjoin mp group_id) [])) r = Except.ok r' →
      ∀ x ∈ r.groups, x ∈ r'.groups := by
  intro names
  induction names with
  | nil =>
    intro r r' h x hx
    injection h with h
    rw [← h]
    exact hx
  | cons n t ih =>
    intro r r' h x hx
    obtain ⟨m, hstep, hrest⟩ := foldlM_cons_ok _ h
    exact ih m r' hrest x (add_group_mem hstep hx)

theorem groups_inner_fold_insert {mp : Path} :
    ∀ (names : List String) (r r' : ArtifactRepo) (gid : String),
      gid ∈ names →
      names.foldlM (fun r group_id =>
        r.add_group (Group.mk group_id (pjoin mp group_id) [])) r = Except.ok r' →
      (gid, Group.mk gid (pjoin mp gid) []) ∈ r'.groups := by
  intro names
  induction names with
  | nil =>
    intro r r' gid hgid
    exact absurd hgid (by simp)
  | cons n t ih =>
    intro r r' gid hgid h
    obtain ⟨m, hstep, hrest⟩ := foldlM_cons_ok _ h
    rcases List.mem_cons.mp hgid with rfl | hgid'
    · have hm : (gid, Group.mk gid (pjoin mp gid) []) ∈ m.groups := by
        rw [(add_group_ok hstep).2]
        exact List.mem_append_right _ (by simp)
      exact groups_inner_fold_mem t m r' hrest _ hm
    · exact ih m r' gid hgid' hrest

theorem groups_outer_fold_mem {fs : Fs} :
    ∀ (mps : List Path) (r r' : ArtifactRepo),
      mps.foldlM (fun r module_path => do
          let names ← listdir fs module_path
          names.foldlM (fun r group_id =>
            r.add_group (Group.mk group_id (pjoin module_path group_id) [])) r) r
        = Except.ok r' →
      ∀ x ∈ r.groups, x ∈ r'.groups := by
  intro mps
  induction mps with
  | nil =>
    intro r r' h x hx
    injection h with h
    rw [← h]
    exact hx
  | cons mp t ih =>
    intro r r' h x hx
    obtain ⟨m, hstep, hrest⟩ := foldlM_cons_ok _ h
    obtain ⟨names, _, hinner⟩ := bind_ok_inv hstep
    exact ih m r' hrest x (groups_inner_fold_mem names r m hinner x hx)

/-- Every group identifier listed under a glob-matched module path ends up
in the repository produced by a successful group-discovery pass, with its
source path. -/
theorem generate_groups_mem {fs : Fs} {cache : Path} {r : ArtifactRepo}
    {mp : Path} {names : List String} {gid : String}
    (hok : GradleCache.generate_groups fs cache = Except.ok r)
    (hmp : mp ∈ globModulePaths fs cache)
    (hld : listdir fs mp = Except.ok names)
    (hgid : gid ∈ names) :
    (gid, Group.mk gid (pjoin mp gid) []) ∈ r.groups := by
  unfold GradleCache.generate_groups at hok
  obtain ⟨l1, l2, hsplit⟩ := List.append_of_mem hmp
  rw [hsplit] at hok
  obtain ⟨m1, h1, hrest⟩ := foldlM_ok_split _ l1 (mp :: l2) _ _ hok
  obtain ⟨m2, hstep, h2⟩ := foldlM_cons_ok _ hrest
  obtain ⟨names', hld', hinner⟩ := bind_ok_inv hstep
  rw [hld] at hld'
  injection hld' with hn
  rw [← hn] at hinner
  have hmem := groups_inner_fold_insert names m1 m2 gid hgid hinner
  exact groups_outer_fold_mem l2 m2 r h2 _ hmem

/-- A successful artifact-discovery pass listed every group's source
path. -/
theorem generate_artifacts_listdir {fs : Fs} {r r2 : ArtifactRepo}
    (hok : GradleCache.generate_artifacts fs r = Except.ok r2) :
    ∀ gg ∈ r.groups, ∃ ns, listdir fs gg.2.path = Except.ok ns := by
  unfold GradleCache.generate_artifacts at hok
  obtain ⟨st, hst, _⟩ := bind_ok_inv hok
  intro gg hgg
  obtain ⟨l1, l2, hsplit⟩ := List.append_of_mem hgg
  rw [hsplit] at hst
  obtain ⟨m1, h1, hrest⟩ := foldlM_ok_split _ l1 (gg :: l2) _ _ hst
  obtain ⟨m2, hstep, h2⟩ := foldlM_cons_ok _ hrest
  obtain ⟨ns, hns, _⟩ := bind_ok_inv hstep
  exact ⟨ns, hns⟩

/-- C4: the scanner performs no existence checks and never skips: a
malformed cache subpath — here a group entry that is a regular file, so
that listing it raises — aborts the whole scan with an error. -/
theorem scan_aborts_on_malformed_subpath (fs : Fs) (cache mp : Path) (gid : String)
    (names : List String) (c : String)
    (hmp : mp ∈ globModulePaths fs cache)
    (hld : listdir fs mp = Except.ok names)
    (hgid : gid ∈ names)
    (hfile : fsGet fs (pjoin mp gid) = some (FsNode.file c)) :
    ∃ e, GradleCache.load fs cache = Except.error e := by
  cases hload : GradleCache.load fs cache with
  | error e => exact ⟨e, rfl⟩
  | ok r =>
    exfalso
    unfold GradleCache.load at hload
    obtain ⟨r0, hgg, hga⟩ := bind_ok_inv hload
    have hmem := generate_groups_mem hgg hmp hld hgid
    obtain ⟨ns, hns⟩ := generate_artifacts_listdir hga _ hmem
    unfold listdir at hns
    rw [hfile] at hns
    exact Except.noConfusion
      (show Except.error PyError.notADirectoryError = Except.ok ns from hns)

/-- A malformed cache: the entry `grp` under the module root is a regular
file where a group directory is expected. -/
def fsBad : Fs :=
  [(["c"], FsNode.dirNode),
   (["c", "caches"], FsNode.dirNode),
   (["c", "caches", "modules-2"], FsNode.dirNode),
   (["c", "caches", "modules-2", "files-1"], FsNode.dirNode),
   (["c", "caches", "modules-2", "files-1", "grp"], FsNode.file "stray")]

/-- Witness for C4: scanning the malformed cache `fsBad` yields no
repository. -/
theorem scan_aborts_on_malformed_subpath_witness :
    (GradleCache.load fsBad ["c"]).toOption = none := by
  obtain ⟨e, he⟩ := scan_aborts_on_malformed_subpath fsBad ["c"]
    ["c", "caches", "modules-2", "files-1"] "grp" ["grp"] "stray"
    (by decide) rfl (by decide) rfl
  rw [he]
  rfl

end Gc2m
